import Mathlib

/-!
Verification development for the `iyes_cli` command registry and dispatcher
(`src/lib.rs`).

The embedding models:

* the `CliCommands` resource: a map from command name to `CliCommandSystems`
  (an optional `noargs` system id and an optional `args` system id), modelled
  as an association list reasoned about extensionally through `lookupTable`
  (mirroring `bevy::utils::HashMap` semantics);
* Bevy's registered-system store: `register_system` allocates a fresh id and
  stores the system; `run_system` / `run_system_with_input` take the system
  out of its slot while it runs (so a re-entrant run of the same id fails
  with a recursive-run error) and put it back afterwards;
* the registration API `register_clicommand_noargs` / `register_clicommand_args`
  / `unregister_clicommand` on a `World`, and `CliCommands::rename_command`;
* the dispatcher `run_cli` (`<World as CliCommandsRunExt>::run_cli`),
  including its tokenization (`trim` + `split_ascii_whitespace`), its
  log/warn/error emissions, its two panic sites (the `resource()` access when
  the `CliCommands` resource is absent, and the
  "Missing CliCommand system registration" fallback), with a fuel parameter
  to bound re-entrant nesting depth.

Handlers are opaque apart from the one capability the spec reasons about:
a handler body is a list of `HAction`s, and an action may re-enter the
dispatcher (`HAction.runCli`), which is how the re-entrancy claims are
settled.  Every observable emission of the dispatcher (debug/warn/error
logs and actual handler invocation, with the argument vector passed) is
recorded as a `LogEvent` so that "which handler ran, with which arguments"
is a provable statement.
-/

namespace IyesCli

/-- An action a registered handler may perform while running.  Handlers are
otherwise opaque; `runCli` re-enters the dispatcher (a handler has exclusive
`World` access in the source, so it can call `run_cli` on the world). -/
inductive HAction where
  | nop : HAction
  | runCli (line : String) : HAction
deriving DecidableEq

/-- A slot in Bevy's registered-system store.  `available = false` models the
state where `run_system` has taken the system out of its entity to run it
(in which case a nested run of the same id fails with a recursive-run
error). -/
structure SysEntry where
  prog : List HAction
  available : Bool
deriving DecidableEq

/-- Model of `struct CliCommandSystems { noargs: Option<SystemId<(), ()>>,
args: Option<SystemId<In<Vec<String>>, ()>> }`; system ids are modelled as
naturals. -/
structure CliCommandSystems where
  noargs : Option Nat
  args : Option Nat
deriving DecidableEq

/-- Why a `run_system` call returned `Err`: the id was never registered, or
the system is currently running (re-entrant invocation of the same id). -/
inductive SysFailReason where
  | notRegistered : SysFailReason
  | recursive : SysFailReason
deriving DecidableEq

/-- Observable emissions of `run_cli`, in program order: the `error!`,
`warn!` and `debug!` log lines of the source, plus an `invoked` event
recording that a registered system actually started running, with the
argument vector it was handed (`none` for the no-input `run_system` call,
`some args` for `run_system_with_input`). -/
inductive LogEvent where
  | errorEmpty : LogEvent
  | errorNotFound (name : String) : LogEvent
  | debugRunArgs (name : String) (args : List String) : LogEvent
  | warnNoArgsSupport (name : String) : LogEvent
  | debugRunNoargs (name : String) : LogEvent
  | debugRunEmptyArgs (name : String) : LogEvent
  | errorRunFailed (name : String) (why : SysFailReason) : LogEvent
  | invoked (id : Nat) (input : Option (List String)) : LogEvent
deriving DecidableEq

/-- Abnormal termination of a dispatch: the two panic sites of `run_cli`
(`resource::<CliCommands>()` on an absent resource, and the
"Missing CliCommand system registration" fallback), plus fuel exhaustion,
an artifact of bounding re-entrant nesting depth in the model. -/
inductive RunError where
  | panicResource : RunError
  | panicMissingRegistration : RunError
  | fuelExhausted : RunError
deriving DecidableEq

/-- The parts of the Bevy `World` the registry and dispatcher touch:
the `CliCommands` resource (`none` = resource never initialized), the
registered-system store, the fresh-id counter for `register_system`, and
the chronological log of observable events. -/
structure World where
  clicommands : Option (List (String × CliCommandSystems))
  systems : List (Nat × SysEntry)
  nextSystemId : Nat
  log : List LogEvent
deriving DecidableEq

/-- A world where nothing was ever registered: the `CliCommands` resource
does not exist. -/
def emptyWorld : World := ⟨none, [], 0, []⟩

/-- Append one observable event to the log. -/
def addLog (w : World) (e : LogEvent) : World := { w with log := w.log ++ [e] }

/-- The table held by the `CliCommands` resource, defaulting to the empty
table (`init_resource` semantics) when the resource is absent. -/
def tableOf (w : World) : List (String × CliCommandSystems) :=
  w.clicommands.getD []

/-- Model of `HashMap::get`: first binding of the name, if any. -/
def lookupTable : List (String × CliCommandSystems) → String →
    Option CliCommandSystems
  | [], _ => none
  | (k, v) :: rest, name => if k = name then some v else lookupTable rest name

/-- Model of `HashMap::remove`: drop every binding of the name. -/
def removeTable : List (String × CliCommandSystems) → String →
    List (String × CliCommandSystems)
  | [], _ => []
  | (k, v) :: rest, name =>
    if k = name then removeTable rest name
    else (k, v) :: removeTable rest name

/-- Model of `HashMap::insert`: replace any existing binding of the name (stated
extensionally through `lookupTable`). -/
def insertTable (t : List (String × CliCommandSystems)) (name : String)
    (v : CliCommandSystems) : List (String × CliCommandSystems) :=
  removeTable t name ++ [(name, v)]

/-- Model of `CliCommands::command_available`. -/
def command_available (t : List (String × CliCommandSystems))
    (name : String) : Bool :=
  (lookupTable t name).isSome

/-- Model of `CliCommands::rename_command`: `commands.remove(old_name)`; on a hit,
`commands.insert(new_name, cmd)` (overwriting any binding of `new_name`)
and `Ok(())`, otherwise `Err(())`.  The boolean is the success flag of the
returned `Result`. -/
def rename_command (t : List (String × CliCommandSystems))
    (old_name new_name : String) :
    List (String × CliCommandSystems) × Bool :=
  match lookupTable t old_name with
  | some cmd => (insertTable (removeTable t old_name) new_name cmd, true)
  | none => (t, false)

/-- Lookup in the registered-system store. -/
def lookupSys : List (Nat × SysEntry) → Nat → Option SysEntry
  | [], _ => none
  | (i, e) :: rest, id => if i = id then some e else lookupSys rest id

/-- Set the availability flag of the slot with the given id (first match
only; ids are allocated freshly so at most one slot matches). -/
def setAvail : List (Nat × SysEntry) → Nat → Bool → List (Nat × SysEntry)
  | [], _, _ => []
  | (i, e) :: rest, id, b =>
    if i = id then (i, { e with available := b }) :: rest
    else (i, e) :: setAvail rest id b

/-- Model of `World::register_clicommand_noargs`: `init_resource::<CliCommands>()`,
`register_system` (fresh id, system stored), then either update the
`noargs` slot of an existing entry or insert a fresh entry holding only
the `noargs` variant. -/
def register_clicommand_noargs (w : World) (name : String)
    (prog : List HAction) : World :=
  let t := tableOf w
  let id := w.nextSystemId
  let t1 := match lookupTable t name with
    | some cmd => insertTable t name { cmd with noargs := some id }
    | none => insertTable t name ⟨some id, none⟩
  { clicommands := some t1
    systems := w.systems ++ [(id, ⟨prog, true⟩)]
    nextSystemId := id + 1
    log := w.log }

/-- Model of `World::register_clicommand_args`: as `register_clicommand_noargs` but
for the `args` slot. -/
def register_clicommand_args (w : World) (name : String)
    (prog : List HAction) : World :=
  let t := tableOf w
  let id := w.nextSystemId
  let t1 := match lookupTable t name with
    | some cmd => insertTable t name { cmd with args := some id }
    | none => insertTable t name ⟨none, some id⟩
  { clicommands := some t1
    systems := w.systems ++ [(id, ⟨prog, true⟩)]
    nextSystemId := id + 1
    log := w.log }

/-- Model of `World::unregister_clicommand`: if the `CliCommands` resource does not
exist, return unchanged; otherwise `commands.remove(name)` (the whole
entry, both variants). -/
def unregister_clicommand (w : World) (name : String) : World :=
  match w.clicommands with
  | none => w
  | some t => { w with clicommands := some (removeTable t name) }

/-- Renaming through the resource, as a `World` operation (used to close the
registration API under reachability). -/
def world_rename (w : World) (old_name new_name : String) : World :=
  match w.clicommands with
  | none => w
  | some t => { w with clicommands := some (rename_command t old_name new_name).1 }

/-- Rust `u8::is_ascii_whitespace` / `str::split_ascii_whitespace` separator
set: space, tab, newline, carriage return, form feed. -/
def isAsciiWs (c : Char) : Bool :=
  c == ' ' || c == '\t' || c == '\n' || c == '\r' || c == Char.ofNat 12

/-- Rust `char::is_whitespace` (the `str::trim` separator set): the Unicode
`White_Space` code points. -/
def isRustWs (c : Char) : Bool :=
  isAsciiWs c || c == Char.ofNat 0x0B || c == Char.ofNat 0x85 ||
  c == Char.ofNat 0xA0 || c == Char.ofNat 0x1680 ||
  (decide (0x2000 ≤ c.toNat) && decide (c.toNat ≤ 0x200A)) ||
  c == Char.ofNat 0x2028 || c == Char.ofNat 0x2029 ||
  c == Char.ofNat 0x202F || c == Char.ofNat 0x205F || c == Char.ofNat 0x3000

/-- Model of `str::trim` on the character list. -/
def trimChars (l : List Char) : List Char :=
  ((l.dropWhile isRustWs).reverse.dropWhile isRustWs).reverse

/-- Accumulator pass of `split_ascii_whitespace`: split on ASCII whitespace,
dropping empty fragments. -/
def splitWsAux : List Char → List Char → List String
  | [], acc => if acc.isEmpty then [] else [String.mk acc.reverse]
  | c :: rest, acc =>
    if isAsciiWs c then
      if acc.isEmpty then splitWsAux rest []
      else String.mk acc.reverse :: splitWsAux rest []
    else splitWsAux rest (c :: acc)

/-- Model of `cli.trim().split_ascii_whitespace()` collected to a list of tokens. -/
def tokenize (s : String) : List String :=
  splitWsAux (trimChars s.toList) []

/-- A unit of work for the fueled interpreter: dispatch a raw line, or run
the remaining actions of a handler body. -/
inductive Job where
  | cli (line : String) : Job
  | handler (prog : List HAction) : Job
deriving DecidableEq

/-- First half of Bevy's `run_system(_with_input)`: look the id up; on a
miss or on a currently-running system, `Err` (logged by `run_cli` as
"failed to run"); otherwise take the system out of its slot and record the
invocation (with the input vector passed). `Sum.inl` is the already-logged
failure world, `Sum.inr` the checked-out world plus the handler body to
run. -/
def beginRun (w : World) (name : String) (id : Nat)
    (input : Option (List String)) :
    Sum World (World × List HAction) :=
  match lookupSys w.systems id with
  | none => Sum.inl (addLog w (LogEvent.errorRunFailed name SysFailReason.notRegistered))
  | some entry =>
    if entry.available then
      Sum.inr (addLog { w with systems := setAvail w.systems id false }
                 (LogEvent.invoked id input), entry.prog)
    else Sum.inl (addLog w (LogEvent.errorRunFailed name SysFailReason.recursive))

/-- Second half of `run_system(_with_input)`: on normal completion of the
handler body, put the system back into its slot; a panic propagates without
restoration. -/
def endRun (id : Nat) (r : World × Option RunError) : World × Option RunError :=
  match r.2 with
  | some _ => r
  | none => ({ r.1 with systems := setAvail r.1.systems id true }, none)

/-- One invocation attempt (`run_system` / `run_system_with_input` plus the
surrounding error report of `run_cli`), parameterized by the interpreter
used to run the checked-out handler body. -/
def invokeGen (recur : World → List HAction → World × Option RunError)
    (w : World) (name : String) (id : Nat) (input : Option (List String)) :
    World × Option RunError :=
  match beginRun w name id input with
  | Sum.inl w1 => (w1, none)
  | Sum.inr (w1, prog) => endRun id (recur w1 prog)

/-- The fueled interpreter.  `Job.cli line` is
`<World as CliCommandsRunExt>::run_cli(line)`, transcribed branch for
branch from the source; `Job.handler prog` runs the remaining actions of a
checked-out handler body.  Fuel bounds re-entrant nesting and handler
length; exhaustion is a model artifact distinct from the two panics. -/
def runStep : Nat → World → Job → World × Option RunError
  | 0, w, _ => (w, some RunError.fuelExhausted)
  | Nat.succ _, w, Job.handler [] => (w, none)
  | Nat.succ f, w, Job.handler (HAction.nop :: rest) =>
    runStep f w (Job.handler rest)
  | Nat.succ f, w, Job.handler (HAction.runCli line :: rest) =>
    let r := runStep f w (Job.cli line)
    match r.2 with
    | some e => (r.1, some e)
    | none => runStep f r.1 (Job.handler rest)
  | Nat.succ f, w, Job.cli cli =>
    match tokenize cli with
    | [] => (addLog w LogEvent.errorEmpty, none)
    | name :: argToks =>
      match w.clicommands with
      | none => (w, some RunError.panicResource)
      | some table =>
        match lookupTable table name with
        | none => (addLog w (LogEvent.errorNotFound name), none)
        | some cmd =>
          if argToks.isEmpty then
            match cmd.noargs with
            | some id =>
              invokeGen (fun w1 p => runStep f w1 (Job.handler p))
                (addLog w (LogEvent.debugRunNoargs name)) name id none
            | none =>
              match cmd.args with
              | some id =>
                invokeGen (fun w1 p => runStep f w1 (Job.handler p))
                  (addLog w (LogEvent.debugRunEmptyArgs name)) name id (some [])
              | none => (w, some RunError.panicMissingRegistration)
          else
            match cmd.args with
            | some id =>
              invokeGen (fun w1 p => runStep f w1 (Job.handler p))
                (addLog w (LogEvent.debugRunArgs name argToks)) name id
                (some argToks)
            | none =>
              let w0 := addLog w (LogEvent.warnNoArgsSupport name)
              match cmd.noargs with
              | some id =>
                invokeGen (fun w1 p => runStep f w1 (Job.handler p))
                  (addLog w0 (LogEvent.debugRunNoargs name)) name id none
              | none =>
                match cmd.args with
                | some id =>
                  invokeGen (fun w1 p => runStep f w1 (Job.handler p))
                    (addLog w0 (LogEvent.debugRunEmptyArgs name)) name id
                    (some [])
                | none => (w0, some RunError.panicMissingRegistration)

/-- Model of `<World as CliCommandsRunExt>::run_cli`, with a fuel bound on
re-entrant nesting depth. -/
def run_cli (fuel : Nat) (w : World) (cli : String) : World × Option RunError :=
  runStep fuel w (Job.cli cli)

/-! ### Basic lemmas about the small operations -/

@[simp]
theorem addLog_clicommands (w : World) (e : LogEvent) :
    (addLog w e).clicommands = w.clicommands := rfl

@[simp]
theorem addLog_systems (w : World) (e : LogEvent) :
    (addLog w e).systems = w.systems := rfl

@[simp]
theorem addLog_nextSystemId (w : World) (e : LogEvent) :
    (addLog w e).nextSystemId = w.nextSystemId := rfl

@[simp]
theorem addLog_log (w : World) (e : LogEvent) :
    (addLog w e).log = w.log ++ [e] := rfl

theorem lookupTable_removeTable_self
    (t : List (String × CliCommandSystems)) (name : String) :
    lookupTable (removeTable t name) name = none := by
  induction t with
  | nil => rfl
  | cons p rest ih =>
    obtain ⟨k, v⟩ := p
    by_cases h : k = name
    · simp [removeTable, h, ih]
    · simp [removeTable, lookupTable, h, ih]

theorem lookupTable_removeTable_ne
    (t : List (String × CliCommandSystems)) (k name : String) (h : k ≠ name) :
    lookupTable (removeTable t name) k = lookupTable t k := by
  induction t with
  | nil => rfl
  | cons p rest ih =>
    obtain ⟨q, v⟩ := p
    by_cases hq : q = name
    · subst hq
      simp [removeTable, lookupTable, Ne.symm h, ih]
    · by_cases h2 : q = k
      · subst h2
        simp [removeTable, lookupTable, hq]
      · simp [removeTable, lookupTable, hq, h2, ih]

theorem lookupTable_insertTable_self
    (t : List (String × CliCommandSystems)) (name : String)
    (v : CliCommandSystems) :
    lookupTable (insertTable t name v) name = some v := by
  induction t with
  | nil => simp [insertTable, removeTable, lookupTable]
  | cons p rest ih =>
    obtain ⟨q, v'⟩ := p
    by_cases hq : q = name
    · simpa [insertTable, removeTable, hq] using ih
    · simpa [insertTable, removeTable, lookupTable, hq] using ih

theorem lookupTable_insertTable_ne
    (t : List (String × CliCommandSystems)) (k name : String)
    (v : CliCommandSystems) (h : k ≠ name) :
    lookupTable (insertTable t name v) k = lookupTable t k := by
  induction t with
  | nil => simp [insertTable, removeTable, lookupTable, Ne.symm h]
  | cons p rest ih =>
    obtain ⟨q, v'⟩ := p
    by_cases hq : q = name
    · subst hq
      simpa [insertTable, removeTable, lookupTable, Ne.symm h] using ih
    · by_cases h2 : q = k
      · subst h2
        simp [insertTable, removeTable, lookupTable, hq]
      · simpa [insertTable, removeTable, lookupTable, hq, h2] using ih

theorem setAvail_setAvail (l : List (Nat × SysEntry)) (id : Nat) (b1 b2 : Bool) :
    setAvail (setAvail l id b1) id b2 = setAvail l id b2 := by
  induction l with
  | nil => rfl
  | cons p rest ih =>
    obtain ⟨i, e⟩ := p
    by_cases h : i = id
    · simp [setAvail, h]
    · simp [setAvail, h, ih]

theorem setAvail_eq_self {b : Bool} (l : List (Nat × SysEntry)) (id : Nat)
    (e : SysEntry) (hs : lookupSys l id = some e) (hb : e.available = b) :
    setAvail l id b = l := by
  induction l with
  | nil => rfl
  | cons p rest ih =>
    obtain ⟨i, e'⟩ := p
    by_cases h : i = id
    · have he : e' = e := by
        simpa [lookupSys, h] using hs
      subst he
      obtain ⟨pr, av⟩ := e'
      simp only [SysEntry.available] at hb
      simp [setAvail, h, hb]
    · have hs' : lookupSys rest id = some e := by
        simpa [lookupSys, h] using hs
      simp [setAvail, h, ih hs']

/-! ### Frame properties of the interpreter -/

/-- What one interpreter step preserves: the `CliCommands` table and the
fresh-id counter are untouched, the log only grows, and — unless the run
aborted (panic or fuel exhaustion) — the registered-system store is fully
restored. -/
def Frame (w : World) (r : World × Option RunError) : Prop :=
  r.1.clicommands = w.clicommands ∧
  r.1.nextSystemId = w.nextSystemId ∧
  (∃ t, r.1.log = w.log ++ t) ∧
  (r.2 = none → r.1.systems = w.systems)

theorem frame_comp {w : World} {r1 r2 : World × Option RunError}
    (h1 : Frame w r1) (h1e : r1.2 = none) (h2 : Frame r1.1 r2) : Frame w r2 := by
  obtain ⟨hc1, hn1, ⟨t1, hl1⟩, hs1⟩ := h1
  obtain ⟨hc2, hn2, ⟨t2, hl2⟩, hs2⟩ := h2
  refine ⟨hc2.trans hc1, hn2.trans hn1, ⟨t1 ++ t2, ?_⟩, fun he => ?_⟩
  · rw [hl2, hl1, List.append_assoc]
  · rw [hs2 he, hs1 h1e]

theorem frame_refl (w : World) (err : Option RunError) : Frame w (w, err) :=
  ⟨rfl, rfl, ⟨[], by simp⟩, fun _ => rfl⟩

theorem frame_addLog (w : World) (e : LogEvent) (err : Option RunError) :
    Frame w (addLog w e, err) :=
  ⟨rfl, rfl, ⟨[e], rfl⟩, fun _ => rfl⟩

theorem endRun_log (id : Nat) (r : World × Option RunError) :
    (endRun id r).1.log = r.1.log := by
  unfold endRun
  split <;> rfl

theorem beginRun_inl (w : World) (name : String) (id : Nat)
    (input : Option (List String)) (w1 : World)
    (h : beginRun w name id input = Sum.inl w1) :
    ∃ why, w1 = addLog w (LogEvent.errorRunFailed name why) := by
  unfold beginRun at h
  split at h
  · exact ⟨SysFailReason.notRegistered, (Sum.inl.inj h).symm⟩
  · split at h
    · exact absurd h (by simp)
    · exact ⟨SysFailReason.recursive, (Sum.inl.inj h).symm⟩

theorem beginRun_inr (w : World) (name : String) (id : Nat)
    (input : Option (List String)) (w1 : World) (prog : List HAction)
    (h : beginRun w name id input = Sum.inr (w1, prog)) :
    ∃ e, lookupSys w.systems id = some e ∧ e.available = true ∧
      prog = e.prog ∧
      w1 = addLog { w with systems := setAvail w.systems id false }
             (LogEvent.invoked id input) := by
  unfold beginRun at h
  split at h
  · exact absurd h (by simp)
  next entry heq =>
    split at h
    next ha =>
      have h2 := Sum.inr.inj h
      have hA : addLog { w with systems := setAvail w.systems id false }
          (LogEvent.invoked id input) = w1 := congrArg Prod.fst h2
      have hB : entry.prog = prog := congrArg Prod.snd h2
      exact ⟨entry, heq, ha, hB.symm, hA.symm⟩
    next ha => exact absurd h (by simp)

theorem invokeGen_frame (recur : World → List HAction → World × Option RunError)
    (w : World) (name : String) (id : Nat) (input : Option (List String))
    (H : ∀ w1 p, Frame w1 (recur w1 p)) :
    Frame w (invokeGen recur w name id input) := by
  unfold invokeGen
  cases hbr : beginRun w name id input with
  | inl w1 =>
    obtain ⟨why, hw1⟩ := beginRun_inl w name id input w1 hbr
    subst hw1
    exact frame_addLog w _ none
  | inr pr =>
    obtain ⟨w1, prog⟩ := pr
    obtain ⟨e, hs, ha, hp, hw1⟩ := beginRun_inr w name id input w1 prog hbr
    obtain ⟨hc, hn, ⟨t, hl⟩, hsys⟩ := H w1 prog
    show Frame w (endRun id (recur w1 prog))
    unfold endRun
    split
    next e2 heq =>
      refine ⟨?_, ?_, ⟨LogEvent.invoked id input :: t, ?_⟩, fun hcon => ?_⟩
      · rw [hc, hw1]
        rfl
      · rw [hn, hw1]
        rfl
      · rw [hl, hw1]
        simp [addLog]
      · rw [heq] at hcon
        cases hcon
    next heq =>
      refine ⟨?_, ?_, ⟨LogEvent.invoked id input :: t, ?_⟩, fun _ => ?_⟩
      · show (recur w1 prog).1.clicommands = w.clicommands
        rw [hc, hw1]
        rfl
      · show (recur w1 prog).1.nextSystemId = w.nextSystemId
        rw [hn, hw1]
        rfl
      · show (recur w1 prog).1.log = w.log ++ _
        rw [hl, hw1]
        simp [addLog]
      · show setAvail (recur w1 prog).1.systems id true = w.systems
        rw [hsys heq, hw1]
        show setAvail (setAvail w.systems id false) id true = w.systems
        rw [setAvail_setAvail]
        exact setAvail_eq_self w.systems id e hs ha

theorem runStep_frame : ∀ (f : Nat) (w : World) (j : Job), Frame w (runStep f w j) := by
  intro f
  induction f with
  | zero =>
    intro w j
    simp only [runStep]
    exact frame_refl w _
  | succ f ih =>
    intro w j
    have Hinv : ∀ w1 p, Frame w1 (runStep f w1 (Job.handler p)) :=
      fun w1 p => ih w1 (Job.handler p)
    match j with
    | Job.handler [] =>
      simp only [runStep]
      exact frame_refl w _
    | Job.handler (HAction.nop :: rest) =>
      simpa only [runStep] using ih w (Job.handler rest)
    | Job.handler (HAction.runCli line :: rest) =>
      simp only [runStep]
      split
      · have h1 := ih w (Job.cli line)
        exact ⟨h1.1, h1.2.1, h1.2.2.1, fun hcon => by cases hcon⟩
      · rename_i heq
        exact frame_comp (ih w (Job.cli line)) heq
          (ih (runStep f w (Job.cli line)).1 (Job.handler rest))
    | Job.cli c =>
      simp only [runStep]
      split
      · exact frame_addLog w _ none
      · split
        · exact frame_refl w _
        · split
          · exact frame_addLog w _ none
          · split
            · split
              · exact frame_comp (frame_addLog w _ none) rfl
                  (invokeGen_frame _ _ _ _ _ Hinv)
              · split
                · exact frame_comp (frame_addLog w _ none) rfl
                    (invokeGen_frame _ _ _ _ _ Hinv)
                · exact frame_refl w _
            · split
              · exact frame_comp (frame_addLog w _ none) rfl
                  (invokeGen_frame _ _ _ _ _ Hinv)
              · split
                · exact frame_comp (frame_addLog w _ none) rfl
                    (frame_comp (frame_addLog _ _ none) rfl
                      (invokeGen_frame _ _ _ _ _ Hinv))
                · split
                  · exact frame_comp (frame_addLog w _ none) rfl
                      (frame_comp (frame_addLog _ _ none) rfl
                        (invokeGen_frame _ _ _ _ _ Hinv))
                  · exact frame_addLog w _ (some RunError.panicMissingRegistration)

/-! ### The at-least-one-variant invariant (support for claim C9) -/

/-- Every command entry of the table holds at least one of the two variant
slots. -/
def TableWF (t : List (String × CliCommandSystems)) : Prop :=
  ∀ k cmd, lookupTable t k = some cmd → cmd.noargs ≠ none ∨ cmd.args ≠ none

/-- The table of the `CliCommands` resource, if present, is well-formed. -/
def WorldWF (w : World) : Prop := ∀ t, w.clicommands = some t → TableWF t

theorem worldWF_of_clicommands_eq {w w1 : World}
    (hcc : w1.clicommands = w.clicommands) (hwf : WorldWF w) : WorldWF w1 :=
  fun t ht => hwf t (hcc ▸ ht)

theorem invokeGen_no_panicMissing
    (recur : World → List HAction → World × Option RunError)
    (w : World) (name : String) (id : Nat) (input : Option (List String))
    (H : ∀ w1 p, w1.clicommands = w.clicommands →
      (recur w1 p).2 ≠ some RunError.panicMissingRegistration) :
    (invokeGen recur w name id input).2 ≠ some RunError.panicMissingRegistration := by
  unfold invokeGen
  cases hbr : beginRun w name id input with
  | inl w1 => simp
  | inr pr =>
    obtain ⟨w1, prog⟩ := pr
    obtain ⟨e, hs, ha, hp, hw1⟩ := beginRun_inr w name id input w1 prog hbr
    show (endRun id (recur w1 prog)).2 ≠ some RunError.panicMissingRegistration
    unfold endRun
    split
    · exact H w1 prog (by rw [hw1]; rfl)
    · simp

theorem runStep_no_panicMissing :
    ∀ (f : Nat) (w : World) (j : Job), WorldWF w →
      (runStep f w j).2 ≠ some RunError.panicMissingRegistration := by
  intro f
  induction f with
  | zero =>
    intro w j _
    simp [runStep]
  | succ f ih =>
    intro w j hwf
    match j with
    | Job.handler [] =>
      simp [runStep]
    | Job.handler (HAction.nop :: rest) =>
      simpa only [runStep] using ih w (Job.handler rest) hwf
    | Job.handler (HAction.runCli line :: rest) =>
      simp only [runStep]
      split
      · rename_i e heq
        intro hcon
        have hcon2 : some e = some RunError.panicMissingRegistration := hcon
        injection hcon2 with he
        exact ih w (Job.cli line) hwf (heq.trans (by rw [he]))
      · rename_i heq
        have hcc := (runStep_frame f w (Job.cli line)).1
        exact ih (runStep f w (Job.cli line)).1 (Job.handler rest)
          (worldWF_of_clicommands_eq hcc hwf)
    | Job.cli c =>
      have Hrec : ∀ (w0 : World), w0.clicommands = w.clicommands →
          ∀ w1 p, w1.clicommands = w0.clicommands →
          (runStep f w1 (Job.handler p)).2 ≠ some RunError.panicMissingRegistration :=
        fun w0 h0 w1 p h1 =>
          ih w1 (Job.handler p)
            (worldWF_of_clicommands_eq (h1.trans h0) hwf)
      rcases htok : tokenize c with _ | ⟨name, argToks⟩
      · simp [runStep, htok]
      · rcases hcc : w.clicommands with _ | table
        · simp [runStep, htok, hcc]
        · rcases hlk : lookupTable table name with _ | cmd
          · simp [runStep, htok, hcc, hlk]
          · have hvar := hwf table hcc name cmd hlk
            by_cases hemp : argToks.isEmpty
            · rcases hna : cmd.noargs with _ | idN
              · rcases hargs : cmd.args with _ | idA
                · rcases hvar with h | h
                  · exact absurd hna h
                  · exact absurd hargs h
                · simp only [runStep, htok, hcc, hlk, hemp, if_true, hna, hargs]
                  exact invokeGen_no_panicMissing _ _ name idA (some [])
                    (Hrec _ (by simp [hcc]))
              · simp only [runStep, htok, hcc, hlk, hemp, if_true, hna]
                exact invokeGen_no_panicMissing _ _ name idN none
                  (Hrec _ (by simp [hcc]))
            · have hemp' : argToks.isEmpty = false := by
                simpa using hemp
              rcases hargs : cmd.args with _ | idA
              · rcases hna : cmd.noargs with _ | idN
                · rcases hvar with h | h
                  · exact absurd hna h
                  · exact absurd hargs h
                · simp only [runStep, htok, hcc, hlk, hemp', Bool.false_eq_true,
                    if_false, hargs, hna]
                  exact invokeGen_no_panicMissing _ _ name idN none
                    (Hrec _ (by simp [hcc]))
              · simp only [runStep, htok, hcc, hlk, hemp', Bool.false_eq_true,
                  if_false, hargs]
                exact invokeGen_no_panicMissing _ _ name idA (some argToks)
                  (Hrec _ (by simp [hcc]))

/-! ### Worlds reachable through the public registration API -/

/-- Worlds reachable from the initial state by any sequence of
registration, unregistration and rename calls. -/
inductive Reachable : World → Prop where
  | init : Reachable emptyWorld
  | regNoargs (w : World) (name : String) (prog : List HAction) :
      Reachable w → Reachable (register_clicommand_noargs w name prog)
  | regArgs (w : World) (name : String) (prog : List HAction) :
      Reachable w → Reachable (register_clicommand_args w name prog)
  | unreg (w : World) (name : String) :
      Reachable w → Reachable (unregister_clicommand w name)
  | ren (w : World) (old_name new_name : String) :
      Reachable w → Reachable (world_rename w old_name new_name)

theorem tableWF_removeTable {t : List (String × CliCommandSystems)}
    (h : TableWF t) (name : String) : TableWF (removeTable t name) := by
  intro k cmd hk
  by_cases hkn : k = name
  · subst hkn
    rw [lookupTable_removeTable_self] at hk
    cases hk
  · rw [lookupTable_removeTable_ne t k name hkn] at hk
    exact h k cmd hk

theorem tableWF_insertTable {t : List (String × CliCommandSystems)}
    (h : TableWF t) (name : String) (v : CliCommandSystems)
    (hv : v.noargs ≠ none ∨ v.args ≠ none) : TableWF (insertTable t name v) := by
  intro k cmd hk
  by_cases hkn : k = name
  · subst hkn
    rw [lookupTable_insertTable_self] at hk
    cases hk
    exact hv
  · rw [lookupTable_insertTable_ne t k name v hkn] at hk
    exact h k cmd hk

theorem reachable_worldWF {w : World} (h : Reachable w) : WorldWF w := by
  induction h with
  | init =>
    intro t ht
    cases ht
  | regNoargs w name prog _ ih =>
    intro t1 ht1
    simp only [register_clicommand_noargs] at ht1
    rcases hlk : lookupTable (tableOf w) name with _ | cmd <;> rw [hlk] at ht1
    · cases ht1
      refine tableWF_insertTable ?_ name _ (Or.inl (by simp))
      intro k c hk
      rcases hcc : w.clicommands with _ | t0
      · simp [tableOf, hcc, lookupTable] at hk
      · exact ih t0 hcc k c (by simpa [tableOf, hcc] using hk)
    · cases ht1
      refine tableWF_insertTable ?_ name _ (Or.inl (by simp))
      intro k c hk
      rcases hcc : w.clicommands with _ | t0
      · simp [tableOf, hcc, lookupTable] at hk
      · exact ih t0 hcc k c (by simpa [tableOf, hcc] using hk)
  | regArgs w name prog _ ih =>
    intro t1 ht1
    simp only [register_clicommand_args] at ht1
    rcases hlk : lookupTable (tableOf w) name with _ | cmd <;> rw [hlk] at ht1
    · cases ht1
      refine tableWF_insertTable ?_ name _ (Or.inr (by simp))
      intro k c hk
      rcases hcc : w.clicommands with _ | t0
      · simp [tableOf, hcc, lookupTable] at hk
      · exact ih t0 hcc k c (by simpa [tableOf, hcc] using hk)
    · cases ht1
      refine tableWF_insertTable ?_ name _ (Or.inr (by simp))
      intro k c hk
      rcases hcc : w.clicommands with _ | t0
      · simp [tableOf, hcc, lookupTable] at hk
      · exact ih t0 hcc k c (by simpa [tableOf, hcc] using hk)
  | unreg w name _ ih =>
    intro t1 ht1
    unfold unregister_clicommand at ht1
    rcases hcc : w.clicommands with _ | t0
    · simp [hcc] at ht1
    · rw [hcc] at ht1
      simp at ht1
      subst ht1
      exact tableWF_removeTable (ih t0 hcc) name
  | ren w old_name new_name _ ih =>
    intro t1 ht1
    unfold world_rename at ht1
    rcases hcc : w.clicommands with _ | t0
    · simp [hcc] at ht1
    · rw [hcc] at ht1
      simp at ht1
      unfold rename_command at ht1
      rcases hlk : lookupTable t0 old_name with _ | cmd <;> rw [hlk] at ht1
      · simp at ht1
        subst ht1
        exact ih t0 hcc
      · simp at ht1
        subst ht1
        exact tableWF_insertTable
          (tableWF_removeTable (ih t0 hcc) old_name) new_name cmd
          (ih t0 hcc old_name cmd hlk)

/-! ### The invocation event (support for claim C4) -/

theorem invokeGen_log (recur : World → List HAction → World × Option RunError)
    (w : World) (name : String) (id : Nat) (input : Option (List String))
    (e : SysEntry) (hs : lookupSys w.systems id = some e)
    (ha : e.available = true)
    (H : ∀ w1 p, Frame w1 (recur w1 p)) :
    ∃ rest, (invokeGen recur w name id input).1.log =
      w.log ++ LogEvent.invoked id input :: rest := by
  have hred : beginRun w name id input =
      Sum.inr (addLog { w with systems := setAvail w.systems id false }
        (LogEvent.invoked id input), e.prog) := by
    unfold beginRun
    rw [hs]
    simp [ha]
  unfold invokeGen
  rw [hred]
  rw [endRun_log]
  obtain ⟨t, hl⟩ :=
    (H (addLog { w with systems := setAvail w.systems id false }
      (LogEvent.invoked id input)) e.prog).2.2.1
  refine ⟨t, ?_⟩
  rw [hl]
  simp [addLog]

/-! ### Concrete scenario worlds used by the claims -/

/-- One command whose handler re-enters the dispatcher on its own name
(the re-entrancy scenario of claim C1). -/
def selfCallWorld (name : String) : World :=
  register_clicommand_noargs emptyWorld name [HAction.runCli name]

/-- The observable trace of one dispatch of the self-calling command:
the outer dispatch finds the entry and starts the handler; the nested
self-invocation again finds the entry (it was never removed from the
table) and fails at the recursive `run_system` call, reported as a
"failed to run" error — not as "not found". -/
def selfCallTrace (name : String) : List LogEvent :=
  [LogEvent.debugRunNoargs name, LogEvent.invoked 0 none,
   LogEvent.debugRunNoargs name,
   LogEvent.errorRunFailed name SysFailReason.recursive]

/-- Registry state with both `old` and `new` registered (claim C2). -/
def tC2 : List (String × CliCommandSystems) :=
  [("old", ⟨some 0, none⟩), ("new", ⟨some 1, none⟩)]

/-- A world whose command `A` has both variants registered (claim C3). -/
def wC3 : World :=
  register_clicommand_args (register_clicommand_noargs emptyWorld "A" []) "A" []

/-! ### Claim C1 -/

/-- Counterexample to claim C1: in the world where command `A`'s handler
calls `execute("A")` on itself, the complete trace of the outer dispatch
never contains the `CommandNotFound` report — the nested self-invocation
instead reaches the recursive `run_system` failure (the entry is never
absent from the `CliCommands` table), and the whole dispatch completes
normally. -/
theorem claim_C1_counterexample :
    (run_cli 4 (selfCallWorld "A") "A").2 = none ∧
    LogEvent.errorRunFailed "A" SysFailReason.recursive ∈
      (run_cli 4 (selfCallWorld "A") "A").1.log ∧
    LogEvent.errorNotFound "A" ∉ (run_cli 4 (selfCallWorld "A") "A").1.log := by
  refine ⟨?_, ?_, ?_⟩ <;> decide

/-- Claim C1 as amended: for every command `A` (any single-token name)
whose handler calls `execute("A")` on itself, the nested call does NOT
observe `CommandNotFound` — the entry stays in the table for the whole
invocation; the nested call re-finds it and fails at the re-entrant
`run_system` call, which is reported as a run failure ("failed to run",
recursive).  After the outer invocation returns, executing `A` invokes its
handler normally again (the second dispatch appends the same trace,
starting with a fresh invocation of the handler). -/
theorem claim_C1_amended (name : String) (htok : tokenize name = [name]) :
    (run_cli 4 (selfCallWorld name) name).2 = none ∧
    (run_cli 4 (selfCallWorld name) name).1.log = selfCallTrace name ∧
    LogEvent.errorNotFound name ∉ (run_cli 4 (selfCallWorld name) name).1.log ∧
    (run_cli 4 (run_cli 4 (selfCallWorld name) name).1 name).2 = none ∧
    (run_cli 4 (run_cli 4 (selfCallWorld name) name).1 name).1.log =
      selfCallTrace name ++ selfCallTrace name := by
  have hrun : run_cli 4 (selfCallWorld name) name =
      ({ clicommands := some [(name, ⟨some 0, none⟩)],
         systems := [(0, ⟨[HAction.runCli name], true⟩)],
         nextSystemId := 1,
         log := selfCallTrace name }, none) := by
    simp [run_cli, runStep, selfCallWorld, register_clicommand_noargs,
      emptyWorld, tableOf, insertTable, removeTable, lookupTable, htok,
      invokeGen, beginRun, endRun, lookupSys, setAvail, addLog, selfCallTrace]
  have hw2 : (run_cli 4 (selfCallWorld name) name).1 =
      { clicommands := some [(name, ⟨some 0, none⟩)],
        systems := [(0, ⟨[HAction.runCli name], true⟩)],
        nextSystemId := 1,
        log := selfCallTrace name } := by
    rw [hrun]
  have hsnd : (run_cli 4 (selfCallWorld name) name).2 = none := by
    rw [hrun]
  have hrun2 : run_cli 4
      ({ clicommands := some [(name, ⟨some 0, none⟩)],
         systems := [(0, ⟨[HAction.runCli name], true⟩)],
         nextSystemId := 1,
         log := selfCallTrace name } : World) name =
      ({ clicommands := some [(name, ⟨some 0, none⟩)],
         systems := [(0, ⟨[HAction.runCli name], true⟩)],
         nextSystemId := 1,
         log := selfCallTrace name ++ selfCallTrace name }, none) := by
    simp [run_cli, runStep, tableOf, lookupTable, htok, invokeGen, beginRun,
      endRun, lookupSys, setAvail, addLog, selfCallTrace]
  have hlog : (run_cli 4 (selfCallWorld name) name).1.log = selfCallTrace name := by
    rw [hw2]
  refine ⟨hsnd, hlog, ?_, ?_, ?_⟩
  · rw [hlog]
    simp [selfCallTrace]
  · rw [hw2, hrun2]
  · rw [hw2, hrun2]

/-- Witness for the amended claim C1 at the concrete command name. -/
theorem claim_C1_amended_witness :
    tokenize "A" = ["A"] ∧ (run_cli 4 (selfCallWorld "A") "A").2 = none :=
  ⟨by decide, (claim_C1_amended "A" (by decide)).1⟩

/-! ### Claim C2 -/

/-- Counterexample to claim C2: with both `old` and `new` registered,
`rename_command` reports success (not a `NameConflict` error) and
overwrites `new`'s entry with `old`'s handlers, so the registry is not
left unchanged. -/
theorem claim_C2_counterexample :
    (rename_command tC2 "old" "new").2 = true ∧
    lookupTable (rename_command tC2 "old" "new").1 "new" =
      some ⟨some 0, none⟩ ∧
    ¬ lookupTable (rename_command tC2 "old" "new").1 "new" =
        lookupTable tC2 "new" := by
  refine ⟨?_, ?_, ?_⟩ <;> decide

/-- Claim C2 as amended: `rename_command` fails (returning `Err(())`, with
the registry unchanged) exactly when `old_name` is not registered; when
`old_name` is registered it always succeeds and moves the entry — the
handlers end up under `new_name` (overwriting any entry previously
registered there), `old_name` is gone (when the two names differ), and
every other entry is untouched.  No occupied-target check is performed. -/
theorem claim_C2_amended (t : List (String × CliCommandSystems))
    (old_name new_name : String) :
    (lookupTable t old_name = none →
      rename_command t old_name new_name = (t, false)) ∧
    (∀ cmd, lookupTable t old_name = some cmd →
      (rename_command t old_name new_name).2 = true ∧
      lookupTable (rename_command t old_name new_name).1 new_name = some cmd ∧
      (old_name ≠ new_name →
        lookupTable (rename_command t old_name new_name).1 old_name = none) ∧
      (∀ k, k ≠ old_name → k ≠ new_name →
        lookupTable (rename_command t old_name new_name).1 k =
          lookupTable t k)) := by
  refine ⟨fun h => ?_, fun cmd h => ?_⟩
  · simp [rename_command, h]
  · refine ⟨by simp [rename_command, h], ?_, fun hne => ?_, fun k h1 h2 => ?_⟩
    · simp [rename_command, h, lookupTable_insertTable_self]
    · simp [rename_command, h,
        lookupTable_insertTable_ne _ old_name new_name cmd hne,
        lookupTable_removeTable_self]
    · simp [rename_command, h,
        lookupTable_insertTable_ne _ k new_name cmd h2,
        lookupTable_removeTable_ne t k old_name h1]

/-- Witness for the amended claim C2: renaming the registered `old` onto
the occupied `new` succeeds and removes `old`. -/
theorem claim_C2_amended_witness :
    (rename_command tC2 "old" "new").2 = true ∧
    lookupTable (rename_command tC2 "old" "new").1 "old" = none :=
  ⟨((claim_C2_amended tC2 "old" "new").2 ⟨some 0, none⟩ (by decide)).1,
   ((claim_C2_amended tC2 "old" "new").2 ⟨some 0, none⟩ (by decide)).2.2.1
     (by decide)⟩

/-! ### Claim C3 -/

/-- Counterexample to claim C3: `unregister_clicommand` takes no variant
kind; deregistering command `A`, which holds BOTH variants, removes the
whole entry — the other variant does not remain registered. -/
theorem claim_C3_counterexample :
    lookupTable (tableOf wC3) "A" = some ⟨some 0, some 1⟩ ∧
    lookupTable (tableOf (unregister_clicommand wC3 "A")) "A" = none ∧
    command_available (tableOf (unregister_clicommand wC3 "A")) "A" = false := by
  refine ⟨?_, ?_, ?_⟩ <;> decide

/-- Claim C3 as amended: deregistration is by name only (there is no
variant-kind parameter): it removes the whole command entry with all its
variants, leaves every other entry unchanged, touches nothing else of the
world, and is a harmless no-op when the command (or the whole `CliCommands`
resource) does not exist. -/
theorem claim_C3_amended (w : World) (name : String) :
    (unregister_clicommand w name).systems = w.systems ∧
    (unregister_clicommand w name).log = w.log ∧
    (w.clicommands = none → unregister_clicommand w name = w) ∧
    lookupTable (tableOf (unregister_clicommand w name)) name = none ∧
    (∀ k, k ≠ name →
      lookupTable (tableOf (unregister_clicommand w name)) k =
        lookupTable (tableOf w) k) := by
  rcases hcc : w.clicommands with _ | t0
  · refine ⟨?_, ?_, fun _ => ?_, ?_, fun k hk => ?_⟩ <;>
      simp [unregister_clicommand, hcc, tableOf, lookupTable]
  · refine ⟨?_, ?_, fun hno => ?_, ?_, fun k hk => ?_⟩
    · simp [unregister_clicommand, hcc]
    · simp [unregister_clicommand, hcc]
    · simp at hno
    · simp [unregister_clicommand, hcc, tableOf, lookupTable_removeTable_self]
    · simp [unregister_clicommand, hcc, tableOf,
        lookupTable_removeTable_ne t0 k name hk]

/-- Witness for the amended claim C3: entries other than the deregistered
one are untouched. -/
theorem claim_C3_amended_witness :
    ("B" : String) ≠ "A" ∧
    lookupTable (tableOf (unregister_clicommand wC3 "A")) "B" =
      lookupTable (tableOf wC3) "B" :=
  ⟨by decide, (claim_C3_amended wC3 "A").2.2.2.2 "B" (by decide)⟩

/-! ### Claim C4 -/

/-- Claim C4 (confirmed): dispatch precedence.  For a registered command
and a line tokenizing to its name plus argument tokens, `run_cli`
(a) with arguments present and an `args` variant, runs the `args` system
with exactly the argument sequence; (b) with arguments present and only a
`noargs` variant, emits the "does not support args" warning and runs the
`noargs` system; (c) with no arguments and a `noargs` variant, runs the
`noargs` system; (d) with no arguments and only an `args` variant, runs
the `args` system with the empty sequence.  The availability hypotheses
say the chosen system is present and not already running. -/
theorem claim_C4 (fuel : Nat) (w : World) (line name : String)
    (argToks : List String) (t : List (String × CliCommandSystems))
    (cmd : CliCommandSystems)
    (htok : tokenize line = name :: argToks)
    (hcc : w.clicommands = some t)
    (hlk : lookupTable t name = some cmd) :
    (∀ id e, argToks ≠ [] → cmd.args = some id →
      lookupSys w.systems id = some e → e.available = true →
      ∃ rest, (run_cli (fuel + 1) w line).1.log =
        w.log ++ LogEvent.debugRunArgs name argToks ::
          LogEvent.invoked id (some argToks) :: rest) ∧
    (∀ id e, argToks ≠ [] → cmd.args = none → cmd.noargs = some id →
      lookupSys w.systems id = some e → e.available = true →
      ∃ rest, (run_cli (fuel + 1) w line).1.log =
        w.log ++ LogEvent.warnNoArgsSupport name ::
          LogEvent.debugRunNoargs name :: LogEvent.invoked id none :: rest) ∧
    (∀ id e, argToks = [] → cmd.noargs = some id →
      lookupSys w.systems id = some e → e.available = true →
      ∃ rest, (run_cli (fuel + 1) w line).1.log =
        w.log ++ LogEvent.debugRunNoargs name ::
          LogEvent.invoked id none :: rest) ∧
    (∀ id e, argToks = [] → cmd.noargs = none → cmd.args = some id →
      lookupSys w.systems id = some e → e.available = true →
      ∃ rest, (run_cli (fuel + 1) w line).1.log =
        w.log ++ LogEvent.debugRunEmptyArgs name ::
          LogEvent.invoked id (some []) :: rest) := by
  have Hframe : ∀ w1 p, Frame w1 (runStep fuel w1 (Job.handler p)) :=
    fun w1 p => runStep_frame fuel w1 (Job.handler p)
  refine ⟨fun id e hne hargs hs ha => ?_, fun id e hne hargs hna hs ha => ?_,
    fun id e hemp hna hs ha => ?_, fun id e hemp hna hargs hs ha => ?_⟩
  · have hemp' : argToks.isEmpty = false := by
      cases argToks
      · exact absurd rfl hne
      · rfl
    simp only [run_cli, runStep, htok, hcc, hlk, hemp', Bool.false_eq_true,
      if_false, hargs]
    obtain ⟨rest, hr⟩ := invokeGen_log _
      (addLog w (LogEvent.debugRunArgs name argToks)) name id (some argToks)
      e hs ha Hframe
    refine ⟨rest, ?_⟩
    rw [hr]
    simp [addLog]
  · have hemp' : argToks.isEmpty = false := by
      cases argToks
      · exact absurd rfl hne
      · rfl
    simp only [run_cli, runStep, htok, hcc, hlk, hemp', Bool.false_eq_true,
      if_false, hargs, hna]
    obtain ⟨rest, hr⟩ := invokeGen_log _
      (addLog (addLog w (LogEvent.warnNoArgsSupport name))
        (LogEvent.debugRunNoargs name)) name id none e hs ha Hframe
    refine ⟨rest, ?_⟩
    rw [hr]
    simp [addLog]
  · subst hemp
    simp only [run_cli, runStep, htok, hcc, hlk, List.isEmpty_nil, if_true, hna]
    obtain ⟨rest, hr⟩ := invokeGen_log _
      (addLog w (LogEvent.debugRunNoargs name)) name id none e hs ha Hframe
    refine ⟨rest, ?_⟩
    rw [hr]
    simp [addLog]
  · subst hemp
    simp only [run_cli, runStep, htok, hcc, hlk, List.isEmpty_nil, if_true, hna,
      hargs]
    obtain ⟨rest, hr⟩ := invokeGen_log _
      (addLog w (LogEvent.debugRunEmptyArgs name)) name id (some []) e hs ha
      Hframe
    refine ⟨rest, ?_⟩
    rw [hr]
    simp [addLog]

/-- Witness for claim C4: a command with both variants, invoked with
arguments, runs the `args` system with the tokens after the name. -/
theorem claim_C4_witness :
    ∃ rest,
      (run_cli 2 (register_clicommand_args
          (register_clicommand_noargs emptyWorld "spawn" []) "spawn" [])
        "spawn 1 2").1.log =
      (register_clicommand_args
          (register_clicommand_noargs emptyWorld "spawn" []) "spawn" []).log ++
        LogEvent.debugRunArgs "spawn" ["1", "2"] ::
          LogEvent.invoked 1 (some ["1", "2"]) :: rest :=
  (claim_C4 1 _ "spawn 1 2" "spawn" ["1", "2"]
      [("spawn", ⟨some 0, some 1⟩)] ⟨some 0, some 1⟩
      (by decide) (by decide) (by decide)).1
    1 ⟨[], true⟩ (by decide) (by decide) (by decide) (by decide)

/-! ### Claim C5 -/

/-- Claim C5 (confirmed): registration, which is total and cannot fail,
creates the command holding only the targeted variant when it did not
exist, overwrites only the targeted slot when it did (the other variant's
slot is carried over by the `Option.bind`), and leaves every other command
entry exactly as it was. -/
theorem claim_C5 (w : World) (name : String) (prog : List HAction) :
    (lookupTable (tableOf (register_clicommand_noargs w name prog)) name =
      some ⟨some w.nextSystemId,
        (lookupTable (tableOf w) name).bind CliCommandSystems.args⟩) ∧
    (∀ k, k ≠ name →
      lookupTable (tableOf (register_clicommand_noargs w name prog)) k =
        lookupTable (tableOf w) k) ∧
    (lookupTable (tableOf (register_clicommand_args w name prog)) name =
      some ⟨(lookupTable (tableOf w) name).bind CliCommandSystems.noargs,
        some w.nextSystemId⟩) ∧
    (∀ k, k ≠ name →
      lookupTable (tableOf (register_clicommand_args w name prog)) k =
        lookupTable (tableOf w) k) := by
  refine ⟨?_, fun k hk => ?_, ?_, fun k hk => ?_⟩
  · rcases hlk : lookupTable (tableOf w) name with _ | cmd
    · simp only [register_clicommand_noargs, tableOf] at *
      rw [hlk]
      simp only [Option.getD_some, Option.none_bind]
      exact lookupTable_insertTable_self _ name _
    · simp only [register_clicommand_noargs, tableOf] at *
      rw [hlk]
      simp only [Option.getD_some, Option.some_bind]
      exact lookupTable_insertTable_self _ name _
  · rcases hlk : lookupTable (tableOf w) name with _ | cmd
    · simp only [register_clicommand_noargs, tableOf] at *
      rw [hlk]
      simp only [Option.getD_some]
      exact lookupTable_insertTable_ne _ k name _ hk
    · simp only [register_clicommand_noargs, tableOf] at *
      rw [hlk]
      simp only [Option.getD_some]
      exact lookupTable_insertTable_ne _ k name _ hk
  · rcases hlk : lookupTable (tableOf w) name with _ | cmd
    · simp only [register_clicommand_args, tableOf] at *
      rw [hlk]
      simp only [Option.getD_some, Option.none_bind]
      exact lookupTable_insertTable_self _ name _
    · simp only [register_clicommand_args, tableOf] at *
      rw [hlk]
      simp only [Option.getD_some, Option.some_bind]
      exact lookupTable_insertTable_self _ name _
  · rcases hlk : lookupTable (tableOf w) name with _ | cmd
    · simp only [register_clicommand_args, tableOf] at *
      rw [hlk]
      simp only [Option.getD_some]
      exact lookupTable_insertTable_ne _ k name _ hk
    · simp only [register_clicommand_args, tableOf] at *
      rw [hlk]
      simp only [Option.getD_some]
      exact lookupTable_insertTable_ne _ k name _ hk

/-- Witness for claim C5: registering `spawn` leaves the entry of a
different name untouched. -/
theorem claim_C5_witness :
    ("other" : String) ≠ "spawn" ∧
    lookupTable (tableOf (register_clicommand_noargs emptyWorld "spawn" []))
        "other" =
      lookupTable (tableOf emptyWorld) "other" :=
  ⟨by decide, (claim_C5 emptyWorld "spawn" []).2.1 "other" (by decide)⟩

/-! ### Claim C6 -/

/-- Claim C6 (confirmed): a dispatch never modifies the `CliCommands`
table at all — so after any invocation, successful or failing with a
handler run error, every command's registered variants are exactly what
they were before the call; and whenever the dispatch completes (no panic,
enough fuel), the registered-system store is also fully restored, so the
command remains invokable. -/
theorem claim_C6 (fuel : Nat) (w : World) (line : String) :
    (run_cli fuel w line).1.clicommands = w.clicommands ∧
    ((run_cli fuel w line).2 = none →
      (run_cli fuel w line).1.systems = w.systems) := by
  have h := runStep_frame fuel w (Job.cli line)
  exact ⟨h.1, h.2.2.2⟩

/-- Witness for claim C6 at an invocation that contains a handler failure
(the nested recursive self-call fails): the system store is restored. -/
theorem claim_C6_witness :
    (run_cli 4 (register_clicommand_noargs emptyWorld "A"
        [HAction.runCli "A"]) "A").1.systems =
      (register_clicommand_noargs emptyWorld "A"
        [HAction.runCli "A"]).systems :=
  (claim_C6 4 (register_clicommand_noargs emptyWorld "A"
      [HAction.runCli "A"]) "A").2 (by decide)

/-! ### Claim C7 -/

/-- Claim C7 (confirmed): a line that is empty after trimming (it
tokenizes to nothing) produces exactly the "Attempted to run empty CLI
string!" report: no handler is invoked and nothing but that log line
changes — in particular the command table is untouched. -/
theorem claim_C7 (fuel : Nat) (w : World) (line : String)
    (htok : tokenize line = []) :
    run_cli (fuel + 1) w line = (addLog w LogEvent.errorEmpty, none) := by
  simp [run_cli, runStep, htok]

/-- Witness for claim C7 at a whitespace-only line. -/
theorem claim_C7_witness :
    run_cli 1 emptyWorld "   " = (addLog emptyWorld LogEvent.errorEmpty, none) :=
  claim_C7 0 emptyWorld "   " (by decide)

/-! ### Claim C8 -/

/-- Claim C8 (confirmed): when the first token names no registered command,
the dispatch reports exactly the "CliCommand not found!" error and stops:
no handler is invoked and nothing but that log line changes — in
particular the command table is untouched. -/
theorem claim_C8 (fuel : Nat) (w : World) (line name : String)
    (argToks : List String) (t : List (String × CliCommandSystems))
    (htok : tokenize line = name :: argToks)
    (hcc : w.clicommands = some t)
    (hlk : lookupTable t name = none) :
    run_cli (fuel + 1) w line =
      (addLog w (LogEvent.errorNotFound name), none) := by
  simp [run_cli, runStep, htok, hcc, hlk]

/-- Witness for claim C8 at an unknown command name. -/
theorem claim_C8_witness :
    run_cli 1 (register_clicommand_noargs emptyWorld "spawn" []) "unknown" =
      (addLog (register_clicommand_noargs emptyWorld "spawn" [])
        (LogEvent.errorNotFound "unknown"), none) :=
  claim_C8 0 _ "unknown" "unknown" [] [("spawn", ⟨some 0, none⟩)]
    (by decide) (by decide) (by decide)

/-! ### Claim C9 -/

/-- Claim C9 (confirmed): every world reachable through the public
registration API (any sequence of register / deregister / rename from the
initial state) has a well-formed table — every entry holds at least one
variant — and consequently no dispatch from such a world can ever reach
the "Missing CliCommand system registration" panic. -/
theorem claim_C9 (w : World) (h : Reachable w) :
    WorldWF w ∧
    ∀ fuel line,
      (run_cli fuel w line).2 ≠ some RunError.panicMissingRegistration :=
  ⟨reachable_worldWF h,
   fun fuel line =>
     runStep_no_panicMissing fuel w (Job.cli line) (reachable_worldWF h)⟩

/-- Witness for claim C9 on a concrete register-then-deregister history. -/
theorem claim_C9_witness :
    (run_cli 1 (unregister_clicommand
        (register_clicommand_args emptyWorld "spawn" []) "spawn")
      "spawn 1").2 ≠ some RunError.panicMissingRegistration :=
  (claim_C9 _ (Reachable.unreg _ "spawn"
      (Reachable.regArgs _ "spawn" [] Reachable.init))).2 1 "spawn 1"

/-! ### Claim C10 -/

/-- Claim C10 (confirmed): in a world where no command was ever registered
(the `CliCommands` resource does not exist), dispatching any line with at
least one token panics at the `resource::<CliCommands>()` access — it does
not report `CommandNotFound`; an empty or whitespace-only line still
returns gracefully, because tokenization happens before the resource
access; and deregistration in that state is a harmless no-op. -/
theorem claim_C10 (w : World) (hcc : w.clicommands = none) :
    (∀ fuel line, tokenize line ≠ [] →
        run_cli (fuel + 1) w line = (w, some RunError.panicResource)) ∧
    (∀ fuel line, tokenize line = [] →
        run_cli (fuel + 1) w line = (addLog w LogEvent.errorEmpty, none)) ∧
    (∀ name, unregister_clicommand w name = w) := by
  refine ⟨fun fuel line hne => ?_, fun fuel line he => ?_, fun name => ?_⟩
  · rcases htok : tokenize line with _ | ⟨nm, args⟩
    · exact absurd htok hne
    · simp [run_cli, runStep, htok, hcc]
  · simp [run_cli, runStep, he]
  · simp [unregister_clicommand, hcc]

/-- Witness for claim C10 in the empty world. -/
theorem claim_C10_witness :
    run_cli 1 emptyWorld "boom" = (emptyWorld, some RunError.panicResource) ∧
    run_cli 1 emptyWorld "" = (addLog emptyWorld LogEvent.errorEmpty, none) ∧
    unregister_clicommand emptyWorld "boom" = emptyWorld :=
  ⟨(claim_C10 emptyWorld rfl).1 0 "boom" (by decide),
   (claim_C10 emptyWorld rfl).2.1 0 "" (by decide),
   (claim_C10 emptyWorld rfl).2.2 "boom"⟩

end IyesCli
